import Mathlib

/-
Shallow embedding of the typed fact store and indexed query engine of
src/clorm/orm.py, together with theorems checking the natural-language
specification against it.

Modelling conventions:
  * clingo symbols (the external term representation) are the inductive `Sym`:
    numbers, strings, and functions (a constant is a function with no
    arguments, a tuple is a function with an empty name).  `clingo.Number`,
    `clingo.String` and `clingo.Function` are total constructors, as in the
    clingo API.
  * Python field values flowing through the core are `PyVal` (ints and
    strings); Python's `None` is represented by `Option PyVal = none` at the
    places where the code can hold `None` (placeholder values, lookups).
  * Python dicts keyed by field name are association lists
    `List (String × PyVal)`; a failed lookup models a `KeyError`.
  * fallible Python code (`raise`) is modelled with `Except String` or
    `Option`; the string carries the message of the raised exception.
-/

namespace Clorm

/-- Value of clingo terms: `clingo.Symbol`.  `fn` covers constants
(`Function(name, [])`), tuples (empty name) and compound terms. -/
inductive Sym where
  | num : Int → Sym
  | str : String → Sym
  | fn : String → List Sym → Sym

/-- Python values stored in a fact's `_field_values` dict. -/
inductive PyVal where
  | int : Int → PyVal
  | str : String → PyVal
deriving DecidableEq, Repr

/-- Truthiness of a possibly-absent Python value: `None`, `0` and `""` are
falsy.  This models `if not x:` on such a value. -/
def pyTruthy : Option PyVal → Bool
  | none => false
  | some (.int n) => n ≠ 0
  | some (.str s) => s ≠ ""

/-- Association-list lookup, modelling Python `dict.get` / `dict[k]`. -/
def alookup {α β : Type} [DecidableEq α] (l : List (α × β)) (k : α) : Option β :=
  match l.find? (fun kv => kv.1 = k) with
  | some kv => some kv.2
  | none => none

/-- Association-list update, modelling Python `dict[k] = v` (replaces the
existing binding, appends a new one otherwise; Python dicts keep the
original insertion position of a replaced key). -/
def aset {α β : Type} [DecidableEq α] (l : List (α × β)) (k : α) (v : β) :
    List (α × β) :=
  if (l.find? (fun kv => kv.1 = k)).isSome then
    l.map (fun kv => if kv.1 = k then (k, v) else kv)
  else l ++ [(k, v)]

/-!  Field definitions.  The source's `IntegerField`, `StringField` and
`ConstantField` (all `SimpleField`s with no in/out conversion functions)
carry an optional default.  `pytocl` encodes a Python value to a symbol and
raises on a value of the wrong shape (modelled by `Option`); `unifies` is the
cheap shape check. -/

inductive FieldDefn where
  | intF : Option PyVal → FieldDefn
  | strF : Option PyVal → FieldDefn
  | constF : Option PyVal → FieldDefn
deriving DecidableEq, Repr

/-- Declared default of a field definition (`None` when undeclared). -/
def FieldDefn.default : FieldDefn → Option PyVal
  | .intF d => d
  | .strF d => d
  | .constF d => d

/-- Encoding one field value: `integer_pytocl` is `clingo.Number` (raises on a
non-int), `string_pytocl` is `clingo.String` (raises on a non-str), and
`constant_pytocl v` is `clingo.Function(v, [])` (raises on a non-str; accepts
any string, including the empty one). -/
def FieldDefn.pytocl : FieldDefn → PyVal → Option Sym
  | .intF _, .int n => some (.num n)
  | .strF _, .str s => some (.str s)
  | .constF _, .str s => some (.fn s [])
  | _, _ => none

/-- Shape check of one field: `integer_unifies`, `string_unifies`,
`constant_unifies`.  A constant unifies only with a `Function` term whose
name is non-empty and whose argument list is empty. -/
def FieldDefn.unifies : FieldDefn → Sym → Bool
  | .intF _, .num _ => true
  | .strF _, .str _ => true
  | .constF _, .fn name args => name ≠ "" && args.isEmpty
  | _, _ => false

/-- Schema of a predicate: the `NonLogicalSymbol.MetaData` content, a name
and the ordered field definitions (`field_defns` is an ordered dict). -/
structure Schema where
  name : String
  fields : List (String × FieldDefn)
deriving DecidableEq, Repr

/-- Stored `_field_values` dict of a fact instance. -/
abbrev FieldValues : Type := List (String × PyVal)

/-- The argument-building loop of `NonLogicalSymbol._generate_symbol`:
encode every field value in field order.  A missing field value is a
`KeyError` and a value of the wrong shape raises inside `pytocl`; both make
the whole construction fail. -/
def encode_fields (fv : FieldValues) : List (String × FieldDefn) → Option (List Sym)
  | [] => some []
  | nfd :: rest => do
    let v ← alookup fv nfd.1
    let a ← nfd.2.pytocl v
    let as ← encode_fields fv rest
    pure (a :: as)

/-- NonLogicalSymbol._generate_symbol: the encoded arguments wrapped in
`clingo.Function(meta.name, args)`. -/
def generate_symbol (schema : Schema) (fv : FieldValues) : Option Sym := do
  let args ← encode_fields fv schema.fields
  pure (.fn schema.name args)

/-- NonLogicalSymbol._unifies: a symbol unifies with the schema iff it is a
Function term with the schema's name and arity whose every argument passes
the positional field's shape check. -/
def nls_unifies (schema : Schema) : Sym → Bool
  | .fn name args =>
      name = schema.name && args.length = schema.fields.length &&
        (schema.fields.zip args).all (fun p => p.1.2.unifies p.2)
  | _ => false

/-- Result of running a `NonLogicalSymbol` constructor: the `_field_values`
dict and the `_symbol` it ended up with (`_symbol` stays `None` when
`_generate_symbol` was never reached). -/
structure FactObj where
  field_values : FieldValues
  symbol : Option Sym

/-- Helper `_nls_init_by_keyword_values`: unknown keyword names raise; each
omitted field falls back to its default, but the presence test is
`if not field_defn.default:` — Python truthiness — so a falsy default
(`0`, `""`, or an undeclared `None`) raises the no-default error.  On
success `_generate_symbol` runs and must succeed. -/
def nls_init_by_keyword_values (schema : Schema) (kwargs : List (String × PyVal)) :
    Except String FactObj :=
  if kwargs.any (fun kv => (alookup schema.fields kv.1).isNone) then
    .error "Arguments are not valid fields"
  else do
    let fv ← schema.fields.mapM (fun nfd =>
      match alookup kwargs nfd.1 with
      | some v => Except.ok (nfd.1, v)
      | none =>
          if pyTruthy nfd.2.default then
            -- `pyTruthy` forces the default to be declared here, so `getD`
            -- never falls back
            Except.ok (nfd.1, nfd.2.default.getD (.int 0))
          else .error "Unspecified field has no default value")
    match generate_symbol schema fv with
    | some s => .ok ⟨fv, some s⟩
    | none => .error "pytocl raised"

/-- Helper `_nls_init_by_positional_values`: on an arity mismatch the code
executes `return ValueError(...)` — it returns the exception object instead
of raising it — so the constructor finishes normally with the empty
`_field_values` dict and `_symbol = None`.  On a matching arity every field
is set positionally and `_generate_symbol` runs. -/
def nls_init_by_positional_values (schema : Schema) (args : List PyVal) :
    Except String FactObj :=
  if args.length ≠ schema.fields.length then
    .ok ⟨[], none⟩
  else
    let fv := (schema.fields.zip args).map (fun p => (p.1.1, p.2))
    match generate_symbol schema fv with
    | some s => .ok ⟨fv, some s⟩
    | none => .error "pytocl raised"

/-- Relevant state of a `_Field` accessor: its field name and the
`no_setter` flag (the metaclass always constructs accessors with the
default `no_setter=True`). -/
structure FieldAccessor where
  field_name : String
  no_setter : Bool
deriving DecidableEq, Repr

/-- The `_Field.__set__` descriptor, applied to an instance of the
accessor's own class (so the `isinstance` guard passes): the code raises
`AttributeError` only when `no_setter` is False, and otherwise writes the
new value into the instance's `_field_values` dict. -/
def Field_set (fa : FieldAccessor) (fv : FieldValues) (v : PyVal) :
    Except String FieldValues :=
  if !fa.no_setter then .error "cant set attribute"
  else .ok (aset fv fa.field_name v)

/-!  Comparator algebra.  `_FieldComparator` objects are only ever created by
the comparison operators of `_Field`, so their first argument is always a
field accessor; the second argument is a field accessor, a placeholder or a
literal value.  Field accessors are identified by their field name (one
accessor object exists per field of a class). -/

/-- Comparison operators (`operator.eq` .. `operator.ge`). -/
inductive CompOp where
  | eq | ne | lt | le | gt | ge
deriving DecidableEq, Repr

/-- Boolean combinators accepted by `_BoolComparator`. -/
inductive BoolOp where
  | notOp | andOp | orOp
deriving DecidableEq, Repr

/-- Identity of a placeholder: the first four unnamed placeholders are keyed
by position, `ph_(name)` placeholders by name. -/
inductive PhName where
  | pos : Nat → PhName
  | named : String → PhName
deriving DecidableEq, Repr

/-- Immutable part of a `_Placeholder` object: its identity and its
declared default (`None` when absent).  The mutable `value` slot is
modelled separately by a `PhEnv` binding environment. -/
structure Ph where
  name : PhName
  default : Option PyVal
deriving DecidableEq, Repr

/-- Second argument of a `_FieldComparator`. -/
inductive RhsArg where
  | fieldArg : String → RhsArg
  | phArg : Ph → RhsArg
  | litArg : PyVal → RhsArg
deriving DecidableEq, Repr

/-- Comparator expression tree: `_StaticComparator`, `_FieldComparator`
(operator, field accessor, second argument) and `_BoolComparator`. -/
inductive Comp where
  | static : Bool → Comp
  | fieldc : CompOp → String → RhsArg → Comp
  | boolc : BoolOp → List Comp → Comp

/-- Applying a comparison operator to two Python ints. -/
def opInt : CompOp → Int → Int → Bool
  | .eq, a, b => a == b
  | .ne, a, b => a != b
  | .lt, a, b => a < b
  | .le, a, b => a ≤ b
  | .gt, a, b => a > b
  | .ge, a, b => a ≥ b

/-- Applying a comparison operator to two Python strings. -/
def opStr : CompOp → String → String → Bool
  | .eq, a, b => a == b
  | .ne, a, b => a != b
  | .lt, a, b => a < b
  | .le, a, b => a ≤ b
  | .gt, a, b => a > b
  | .ge, a, b => a ≥ b

/-- Python comparison of two values: same-typed values compare; a mixed pair
gives `False` for `==`, `True` for `!=`, and raises `TypeError` (modelled by
`none`) for the order operators. -/
def pyCompare : CompOp → PyVal → PyVal → Option Bool
  | op, .int a, .int b => some (opInt op a b)
  | op, .str a, .str b => some (opStr op a b)
  | .eq, _, _ => some false
  | .ne, _, _ => some true
  | _, _, _ => none

/-- The `_static` flag a `_FieldComparator` precomputes: with the first
argument a field accessor, the comparison is trivial iff the second argument
is literally the same accessor. -/
def fc_static (f : String) (a : RhsArg) : Bool :=
  match a with
  | .fieldArg g => g = f
  | _ => false

/-- Value `compop(1, 1)` stored for a trivial self-comparison. -/
def fc_static_value (op : CompOp) : Bool := opInt op 1 1

/-- Current placeholder binding: the mutable `value` slot of every
placeholder, `none` for an unbound one. -/
abbrev PhEnv : Type := PhName → Option PyVal

/-- Comparing a field's value against a resolved second argument.  A `None`
second value (an unbound placeholder) makes `==` give `False` and `!=` give
`True`, and raises `TypeError` for the order operators; `__call__` catches
the `TypeError` and returns `False`. -/
def compareVals (op : CompOp) (v1 : PyVal) : Option PyVal → Bool
  | some v2 => (pyCompare op v1 v2).getD false
  | none =>
      match op with
      | .eq => false
      | .ne => true
      | _ => false

/-- Resolution of a second argument inside `_FieldComparator.__call__`:
a field accessor reads the fact's value (`KeyError` if absent, modelled by
the `Except` error), a placeholder yields its current (possibly `None`)
value, a literal yields itself. -/
def resolve_arg (a : RhsArg) (fv : FieldValues) (phv : PhEnv) :
    Except Unit (Option PyVal) :=
  match a with
  | .fieldArg g =>
      match alookup fv g with
      | some v => .ok (some v)
      | none => .error ()
  | .phArg p => .ok (phv p.name)
  | .litArg v => .ok (some v)

/-- The body of `_FieldComparator.__call__`: a static comparator returns its
precomputed value; otherwise both sides are resolved and compared, with
`KeyError` and `TypeError` caught and turned into `False`. -/
def fieldc_eval (op : CompOp) (f : String) (a : RhsArg) (fv : FieldValues)
    (phv : PhEnv) : Bool :=
  if fc_static f a then fc_static_value op
  else
    match alookup fv f, resolve_arg a fv phv with
    | some v1, .ok v2 => compareVals op v1 v2
    | _, _ => false

mutual

/-- Evaluation of a comparator on a fact (`Comparator.__call__`): `not`
inverts its single child, `and` short-circuits on the first false child,
`or` on the first true child. -/
def evalComp (fv : FieldValues) (phv : PhEnv) : Comp → Bool
  | .static b => b
  | .fieldc op f a => fieldc_eval op f a fv phv
  | .boolc .notOp args =>
      match args with
      | c :: _ => !(evalComp fv phv c)
      | [] => false
      -- the `[]` branch is unreachable: the constructor demands one child
  | .boolc .andOp args => evalAll fv phv args
  | .boolc .orOp args => evalAny fv phv args

/-- Conjunction loop of `_BoolComparator.__call__`. -/
def evalAll (fv : FieldValues) (phv : PhEnv) : List Comp → Bool
  | [] => true
  | c :: rest => evalComp fv phv c && evalAll fv phv rest

/-- Disjunction loop of `_BoolComparator.__call__`. -/
def evalAny (fv : FieldValues) (phv : PhEnv) : List Comp → Bool
  | [] => false
  | c :: rest => evalComp fv phv c || evalAny fv phv rest

end

mutual

/-- Simplification (`simplified` methods, through the helper
`_simplify_fact_comparator`).  A static comparator is returned unchanged
(its `simplified` method is misspelled, so the helper's bare `except`
catches the `AttributeError`); a field comparator folds to its static value
when trivial; a boolean comparator runs the child loop below and then the
combination step. -/
def simplifyComp : Comp → Comp
  | .static b => .static b
  | .fieldc op f a =>
      if fc_static f a then .static (fc_static_value op) else .fieldc op f a
  | .boolc bop args =>
      match simp_loop bop args with
      | .error v => .static v
      | .ok newargs =>
          if newargs.isEmpty && bop = .andOp then .static true
          else if newargs.isEmpty && bop = .orOp then .static false
          else if bop ≠ .notOp && newargs.length == 1 then
            newargs.headD (.static false)
          else .boolc bop newargs

/-- Child loop of `_BoolComparator.simplified`.  A child that simplifies to
a static value makes a `not` node return the negated value at once
(modelled by `Except.error`).  For `and` and `or` the code computes the
short-circuit branches (`if boolop == and_ and not sarg.value: sarg`,
`if boolop == or_ and sarg.value: sarg`) whose result expressions are bare
statements with no effect, so every static child is simply dropped from
`newargs`. -/
def simp_loop (bop : BoolOp) : List Comp → Except Bool (List Comp)
  | [] => .ok []
  | c :: rest =>
      match simplifyComp c with
      | .static v =>
          if bop = .notOp then .error (!v)
          else simp_loop bop rest
      | sc => do
          let tail ← simp_loop bop rest
          .ok (sc :: tail)

end

/-!  The `_MultiMap` index.  The Python code is key-type agnostic and relies
only on `<` between keys (through the `bisect` module); within one index all
keys are values of a single field, so they share a type.  The model uses a
boolean `<` on `PyVal` that agrees with Python on same-typed keys; on a
mixed-typed pair Python raises `TypeError`, a situation no claim exercises,
and the model extends the order arbitrarily instead. -/

/-- Python `<` between index keys. -/
def pylt : PyVal → PyVal → Bool
  | .int a, .int b => a < b
  | .str a, .str b => a < b
  | .int _, .str _ => true
  | .str _, .int _ => false

/-- Insertion point of `bisect.bisect_left` on the sorted key list: the
number of keys strictly below the probe. -/
def bisect_left (l : List PyVal) (key : PyVal) : Nat :=
  (l.takeWhile (fun k => pylt k key)).length

/-- Insertion point of `bisect.bisect_right` on the sorted key list: the
number of keys not above the probe (`bisect_right` probes with
`key < list[mid]`). -/
def bisect_right (l : List PyVal) (key : PyVal) : Nat :=
  (l.takeWhile (fun k => !(pylt key k))).length

/-- The `bisect.insort_left` insertion into the sorted key list. -/
def insort_left (l : List PyVal) (key : PyVal) : List PyVal :=
  l.take (bisect_left l key) ++ key :: l.drop (bisect_left l key)

/-- State of a `_MultiMap`: the sorted list of distinct keys and the
key-to-fact-list dict. -/
structure MultiMap where
  keylist : List PyVal
  key2values : List (PyVal × List FieldValues)

/-- MultiMap.keys_eq. -/
def MultiMap.keys_eq (m : MultiMap) (key : PyVal) : List PyVal :=
  if (alookup m.key2values key).isSome then [key] else []

/-- MultiMap.keys_ne: both slice guards are `if posn:`, so a position of 0
yields the empty slice — for the right half this wrongly discards the whole
key list when the probe is below every stored key. -/
def MultiMap.keys_ne (m : MultiMap) (key : PyVal) : List PyVal :=
  let posn1 := bisect_left m.keylist key
  let left := if posn1 ≠ 0 then m.keylist.take posn1 else []
  let posn2 := bisect_right m.keylist key
  let right := if posn2 ≠ 0 then m.keylist.drop posn2 else []
  left ++ right

/-- MultiMap.keys_lt (here the `if posn:` guard is harmless: at position 0
the slice `keylist[:0]` is empty anyway). -/
def MultiMap.keys_lt (m : MultiMap) (key : PyVal) : List PyVal :=
  let posn := bisect_left m.keylist key
  if posn ≠ 0 then m.keylist.take posn else []

/-- MultiMap.keys_le. -/
def MultiMap.keys_le (m : MultiMap) (key : PyVal) : List PyVal :=
  let posn := bisect_right m.keylist key
  if posn ≠ 0 then m.keylist.take posn else []

/-- MultiMap.keys_gt: the guard `if posn:` returns the empty list at
position 0, where the correct suffix `keylist[0:]` would be the whole key
list. -/
def MultiMap.keys_gt (m : MultiMap) (key : PyVal) : List PyVal :=
  let posn := bisect_right m.keylist key
  if posn ≠ 0 then m.keylist.drop posn else []

/-- MultiMap.keys_ge, with the same truncated-suffix guard as `keys_gt`. -/
def MultiMap.keys_ge (m : MultiMap) (key : PyVal) : List PyVal :=
  let posn := bisect_left m.keylist key
  if posn ≠ 0 then m.keylist.drop posn else []

/-- MultiMap.keys_op dispatch. -/
def MultiMap.keys_op (m : MultiMap) : CompOp → PyVal → List PyVal
  | .eq, key => m.keys_eq key
  | .ne, key => m.keys_ne key
  | .lt, key => m.keys_lt key
  | .le, key => m.keys_le key
  | .gt, key => m.keys_gt key
  | .ge, key => m.keys_ge key

/-- MultiMap.__setitem__: append the fact to the key's list (creating the
entry if needed), then insert the key into the sorted key list unless it is
already there. -/
def MultiMap.setitem (m : MultiMap) (key : PyVal) (v : FieldValues) : MultiMap :=
  let k2v :=
    match alookup m.key2values key with
    | some vs => aset m.key2values key (vs ++ [v])
    | none => m.key2values ++ [(key, [v])]
  let posn := bisect_left m.keylist key
  let kl :=
    if m.keylist.get? posn = some key then m.keylist
    else insort_left m.keylist key
  ⟨kl, k2v⟩

/-- MultiMap.__getitem__.  A missing key raises `KeyError` in Python;
`Select.get` only indexes with keys produced by `keys_op`, which all lie in
the key list, so the default is never taken there. -/
def MultiMap.getitem (m : MultiMap) (key : PyVal) : List FieldValues :=
  (alookup m.key2values key).getD []

/-!  The per-schema `_FactMap` and the `_Select` query over it. -/

/-- State of a `_FactMap`: the unindexed fact list, the indexed field names
in registration order (the keys of the `_mmaps` ordered dict, which fix the
index priorities), and the multimaps themselves. -/
structure FactMap where
  allfacts : List FieldValues
  index : List String
  mmaps : List (String × MultiMap)

/-- Fresh `_FactMap` for the given indexed fields. -/
def mkFactMap (index : List String) : FactMap :=
  ⟨[], index, index.map (fun f => (f, ⟨[], []⟩))⟩

/-- FactMap.add: append to `_allfacts` and push the fact into every index
under its field value.  In Python `field.__get__(fact)` raises on a fact
lacking the field; every fact stored through the public interface carries
all schema fields, so the model leaves the map unchanged in that
unreachable case. -/
def FactMap.add (fm : FactMap) (fact : FieldValues) : FactMap :=
  { fm with
    allfacts := fm.allfacts ++ [fact]
    mmaps := fm.mmaps.map (fun fmm =>
      match alookup fact fmm.1 with
      | some v => (fmm.1, fmm.2.setitem v fact)
      | none => fmm) }

/-- Index candidate: the `(field, op, value-side)` triple returned by
`_FieldComparator.indexable`. -/
abbrev Ix : Type := String × CompOp × RhsArg

/-- The `_FieldComparator.indexable` method: no candidate for a static
comparator or one whose second argument is a field accessor. -/
def fc_indexable (op : CompOp) (f : String) (a : RhsArg) : Option Ix :=
  if fc_static f a then none
  else
    match a with
    | .fieldArg _ => none
    | _ => some (f, op, a)

/-- Priority of an indexed field: its position in the registration order
(`_index_priority`); only queried for fields of the index list. -/
def prio (index : List String) (f : String) : Nat := index.indexOf f

/-- The `validate_indexable` closure of `_Select._primary_search`: drop a
candidate whose field carries no index. -/
def validate_indexable (index : List String) : Option Ix → Option Ix
  | some t => if t.1 ∈ index then some t else none
  | none => none

/-- One step of the candidate bookkeeping in `_primary_search`'s loop: a
found child candidate replaces the current one only when its field has a
strictly lower priority number. -/
def ps_merge (index : List String) (acc tmp : Option Ix) : Option Ix :=
  match tmp with
  | none => acc
  | some t =>
      match acc with
      | none => some t
      | some cur => if prio index t.1 < prio index cur.1 then some t else some cur

mutual

/-- The `_Select._primary_search` walk: a field comparator contributes its
validated candidate; an `and` node folds the recursive results of its
children; every other node (including `or` and `not` nodes and static
comparators) yields no candidate. -/
def primary_search (index : List String) : Comp → Option Ix
  | .fieldc op f a => validate_indexable index (fc_indexable op f a)
  | .boolc .andOp args => ps_loop index args none
  | _ => none

/-- Child loop of `_primary_search` over an `and` node. -/
def ps_loop (index : List String) : List Comp → Option Ix → Option Ix
  | [], acc => acc
  | c :: rest, acc => ps_loop index rest (ps_merge index acc (primary_search index c))

end

mutual

/-- The `_Select._get_placeholders` walk (via
`_FieldComparator.placeholders`; the first argument of a field comparator is
always a field accessor, so only the second argument can contribute). -/
def get_placeholders : Comp → List Ph
  | .static _ => []
  | .fieldc _ _ a =>
      match a with
      | .phArg p => [p]
      | _ => []
  | .boolc _ args => gp_loop args

/-- Child loop of `_get_placeholders`. -/
def gp_loop : List Comp → List Ph
  | [] => []
  | c :: rest => get_placeholders c ++ gp_loop rest

end

/-- The dict comprehension building `_name_to_ph`: keyed by placeholder
name, first-occurrence position, last-occurrence value. -/
def name_to_ph (l : List Ph) : List Ph :=
  l.foldl (fun acc p =>
    if acc.any (fun q => q.name = p.name) then
      acc.map (fun q => if q.name = p.name then p else q)
    else acc ++ [p]) []

/-- State a `_Select` holds after its `where` call. -/
structure SelectSt where
  factmap : FactMap
  whereC : Option Comp
  indexable : Option Ix
  phs : List Ph

/-- The `_Select.where` call: one expression is simplified directly, several
are wrapped in `and_` first; then the index candidate and the placeholder
dict are computed from the simplified tree. -/
def Select_where (fm : FactMap) (exprs : List Comp) : SelectSt :=
  let w : Option Comp :=
    match exprs with
    | [] => none
    | [e] => some (simplifyComp e)
    | es => some (simplifyComp (.boolc .andOp es))
  { factmap := fm
    whereC := w
    indexable :=
      match w with
      | some c => primary_search fm.index c
      | none => none
    phs :=
      match w with
      | some c => name_to_ph (get_placeholders c)
      | none => [] }

/-!  Placeholder binding (`_Select._set_placeholder_values`). -/

/-- Lookup of `_name_to_ph` entries by name. -/
def find_ph (phs : List Ph) (n : PhName) : Option Ph :=
  phs.find? (fun p => p.name = n)

/-- The `kwargs.get(n, None)` read: a positionally-named placeholder can
never match a keyword (Python keywords are strings), and an explicit `None`
argument is indistinguishable from an absent one. -/
def kwget (kwargs : List (String × Option PyVal)) : PhName → Option PyVal
  | .named s =>
      match alookup kwargs s with
      | some (some v) => some v
      | _ => none
  | .pos _ => none

/-- Value a placeholder ends up with in the keyword path: the supplied
argument when one is given (and is not `None`), otherwise the default
(`reset`). -/
def resolved_value (kwargs : List (String × Option PyVal)) (ph : Ph) :
    Option PyVal :=
  match kwget kwargs ph.name with
  | some x => some x
  | none => ph.default

/-- Keyword loop of `_set_placeholder_values`: every known placeholder is
reset to its default or set to the supplied value, and the loop raises at a
placeholder whose value is still `None`. -/
def bind_kwargs (kwargs : List (String × Option PyVal)) :
    List Ph → Except String (List (PhName × Option PyVal))
  | [] => .ok []
  | ph :: rest =>
      let newv := resolved_value kwargs ph
      if newv.isNone then .error "no value for placeholder"
      else do
        let tail ← bind_kwargs kwargs rest
        .ok ((ph.name, newv) :: tail)

/-- Positional loop of `_set_placeholder_values`: argument `i` goes to the
placeholder keyed by position `i`, which must exist.  No reset and no
unbound check happens on this path. -/
def bind_positional (phs : List Ph) (args : List (Option PyVal)) :
    Except String (List (PhName × Option PyVal)) :=
  ((List.range args.length).zip args).mapM (fun ia =>
    match find_ph phs (.pos ia.1) with
    | some ph => .ok (ph.name, ia.2)
    | none => .error "no placeholder for positional argument index")

/-- The `_Select._set_placeholder_values` entry point.  The result is the
binding each known placeholder's mutable `value` slot ends up with. -/
def set_placeholder_values (phs : List Ph) (args : List (Option PyVal))
    (kwargs : List (String × Option PyVal)) :
    Except String (List (PhName × Option PyVal)) :=
  if phs.isEmpty && kwargs.isEmpty && args.isEmpty then .ok []
  else if !args.isEmpty && !kwargs.isEmpty then
    .error "cannot specify both positional and keyword arguments"
  else if !args.isEmpty then
    if args.length ≠ phs.length then
      .error "Mismatch in the number of placeholder arguments"
    else bind_positional phs args
  else
    if kwargs.any (fun kv => (find_ph phs (.named kv.1)).isNone) then
      .error "unknown placeholder name"
    else bind_kwargs kwargs phs

/-- The `get_value` closure of `_Select.get`: a placeholder contributes its
bound value, a literal itself.  The field-accessor case cannot arise (such
comparators are never indexable), and an unbound placeholder (`None` key)
would raise `TypeError` inside `bisect` — after a successful binding step of
the keyword path every placeholder value is set. -/
def get_value (a : RhsArg) (phv : PhEnv) : Option PyVal :=
  match a with
  | .phArg p => phv p.name
  | .litArg v => some v
  | .fieldArg _ => none

/-- The iteration of `_Select.get` after placeholder binding, flattened to a
list: without an index candidate a full scan filters `_allfacts` by the
where comparator (everything matches when there is none); with a candidate
the keys selected by `keys_op` drive the iteration and every fact stored
under them is re-checked against the full where comparator. -/
def Select_get (s : SelectSt) (phv : PhEnv) : List FieldValues :=
  match s.indexable with
  | none =>
      match s.whereC with
      | none => s.factmap.allfacts
      | some w => s.factmap.allfacts.filter (fun f => evalComp f phv w)
  | some (f, op, a) =>
      match get_value a phv with
      | none => []
      | some key =>
          let mmap := (alookup s.factmap.mmaps f).getD ⟨[], []⟩
          ((mmap.keys_op op key).map (fun k =>
            (mmap.getitem k).filter (fun fact =>
              match s.whereC with
              | some w => evalComp fact phv w
              | none => true))).flatten

/-!  Specification-side definitions.  These follow the words of the
specification (not the code) and are compared against the embedded code. -/

/-- Test for a field-accessor second argument. -/
def RhsArg.isFieldArg : RhsArg → Bool
  | .fieldArg _ => true
  | _ => false

mutual

/-- Drivable leaves in the sense of the specification, in encounter order:
a `FieldCompare` on an indexed field whose other side is not a
field-reference contributes itself; children of an `AND` node are searched
recursively; `OR` and `NOT` nodes and static comparators contribute
nothing. -/
def spec_drivable_leaves (index : List String) : Comp → List Ix
  | .fieldc op f a => (validate_indexable index (fc_indexable op f a)).toList
  | .boolc .andOp args => sdl_loop index args
  | _ => []

/-- Child concatenation for `spec_drivable_leaves`. -/
def sdl_loop (index : List String) : List Comp → List Ix
  | [] => []
  | c :: rest => spec_drivable_leaves index c ++ sdl_loop index rest

end

/-- Specification choice rule among drivable leaves: the candidate whose
field has the lowest priority number, ties broken in favour of the earlier
encountered one. -/
def spec_first_min (index : List String) : List Ix → Option Ix
  | [] => none
  | t :: rest =>
      match spec_first_min index rest with
      | none => some t
      | some u => if prio index t.1 ≤ prio index u.1 then some t else some u

/-- Specification-side validity of one stored field value: the only corner
where a value the encoder accepts fails the shape check is a constant field
holding the empty string (its encoding `Function("", [])` has an empty
name).  Every other accepted value is unexceptional. -/
def fieldValOk : FieldDefn → PyVal → Bool
  | .constF _, .str s => s ≠ ""
  | _, _ => true

/-- Validity of a whole `_field_values` dict against a schema. -/
def factValsOk (schema : Schema) (fv : FieldValues) : Bool :=
  schema.fields.all (fun nfd =>
    match alookup fv nfd.1 with
    | some v => fieldValOk nfd.2 v
    | none => true)

/-!  Concrete instances used by the counterexamples, the scenario checks and
the witnesses.  They follow the worked scenario of the specification:
a predicate `Point(x, y)` of two integer fields with `x` indexed, holding
the facts `(1,1)`, `(2,4)` and `(3,9)`. -/

/-- Schema of the scenario predicate. -/
def pointSchema : Schema := ⟨"point", [("x", .intF none), ("y", .intF none)]⟩

/-- Fact point(1,1). -/
def pt11 : FieldValues := [("x", .int 1), ("y", .int 1)]

/-- Fact point(2,4). -/
def pt24 : FieldValues := [("x", .int 2), ("y", .int 4)]

/-- Fact point(3,9). -/
def pt39 : FieldValues := [("x", .int 3), ("y", .int 9)]

/-- Comparator `Point.x > 0`. -/
def xGt0 : Comp := .fieldc .gt "x" (.litArg (.int 0))

/-- Comparator `Point.x > 1`. -/
def xGt1 : Comp := .fieldc .gt "x" (.litArg (.int 1))

/-- Binding environment with every placeholder unbound. -/
def emptyEnv : PhEnv := fun _ => none

/-- The scenario fact partition with `x` indexed. -/
def pointMapIdx : FactMap := ((mkFactMap ["x"]).add pt11).add pt24 |>.add pt39

/-- The same facts in a partition without any index (forcing a full scan). -/
def pointMapScan : FactMap := ((mkFactMap []).add pt11).add pt24 |>.add pt39

/-- The first unnamed placeholder, `ph1_` (position 0, no default). -/
def ph1 : Ph := ⟨.pos 0, none⟩

/-- Comparator `Point.x == ph1_`. -/
def xEqPh : Comp := .fieldc .eq "x" (.phArg ph1)

/-- Binding environment after `get(2)`: `ph1_` bound to 2. -/
def env2 : PhEnv := fun n => if n = .pos 0 then some (.int 2) else none

/-- Schema with a falsy declared default: `p(x : Integer, y : Integer
(default 0))`. -/
def pointDef0 : Schema := ⟨"p", [("x", .intF none), ("y", .intF (some (.int 0)))]⟩

/-- Schema with a truthy declared default 7 on `y`. -/
def pointDef7 : Schema := ⟨"p", [("x", .intF none), ("y", .intF (some (.int 7)))]⟩

/-- Schema of one constant field: `q(a : Constant)`. -/
def constSchema : Schema := ⟨"q", [("a", .constF none)]⟩

/-!  Theorems. -/

/-- C1 (code_bug): the indexed `Select.get` does not match the full scan.
With the scenario facts and `x` indexed, the query `Point.x > 0` driven by
the index returns no facts, while the full scan (and the direct filter by
the same comparator) returns all three.  The root cause is evaluated alongside:
`keys_gt`, `keys_ge` and `keys_ne` return the empty list whenever the
bisect position of the probe is 0, i.e. whenever the probe is below (or,
for `ne`, not above) every stored key, although every stored key stands in
the requested relation to the probe. -/
theorem select_get_index_scan_divergence :
    Select_get (Select_where pointMapIdx [xGt0]) emptyEnv = [] ∧
    Select_get (Select_where pointMapScan [xGt0]) emptyEnv = [pt11, pt24, pt39] ∧
    pointMapIdx.allfacts.filter (fun f => evalComp f emptyEnv xGt0)
      = [pt11, pt24, pt39] ∧
    MultiMap.keys_gt ⟨[.int 1, .int 2, .int 3], []⟩ (.int 0) = [] ∧
    MultiMap.keys_ge ⟨[.int 1, .int 2, .int 3], []⟩ (.int 1) = [] ∧
    MultiMap.keys_ne ⟨[.int 1, .int 2, .int 3], []⟩ (.int 0) = [] ∧
    ([.int 1, .int 2, .int 3] : List PyVal).filter (fun k => pylt (.int 0) k)
      = [.int 1, .int 2, .int 3] := by
  exact ⟨by decide, by decide, by decide, by decide, by decide, by decide, by decide⟩

/-- C2 (code_bug): simplification is not semantics-preserving.  For the
comparator `AND(Static(false), Point.x > 1)` and the fact point(2,4), the
comparator evaluates to false but its simplification (which silently drops
the static false child) evaluates to true. -/
theorem simplified_changes_semantics :
    evalComp pt24 emptyEnv (.boolc .andOp [.static false, xGt1]) = false ∧
    simplifyComp (.boolc .andOp [.static false, xGt1]) = xGt1 ∧
    evalComp pt24 emptyEnv (simplifyComp (.boolc .andOp [.static false, xGt1]))
      = true :=
  ⟨rfl, rfl, rfl⟩

/-- C3 (code_bug): no short-circuit constant folding happens.  The
short-circuit branches of `_BoolComparator.simplified` compute their fold
value in a bare expression statement and discard it, so a static child is
simply dropped: `OR(Static(true), x > 1)` simplifies to the comparator
`x > 1` instead of `Static(true)`, and `AND(Static(false), Static(true))`
even simplifies to `Static(true)`.  Only the scenario half not involving
the discarded branches holds: `AND(Static(true), x > 1)` simplifies to
`x > 1`. -/
theorem simplified_no_constant_folding :
    simplifyComp (.boolc .orOp [.static true, xGt1]) = xGt1 ∧
    simplifyComp (.boolc .orOp [.static true, xGt1]) ≠ .static true ∧
    simplifyComp (.boolc .andOp [.static false, .static true]) = .static true ∧
    simplifyComp (.boolc .andOp [.static true, xGt1]) = xGt1 :=
  ⟨rfl, fun h => Comp.noConfusion h, rfl, rfl⟩

/-- C4 (code_bug): field assignment succeeds.  `_Field.__set__` raises only
when `no_setter` is False, but the metaclass constructs every accessor with
the default `no_setter=True`, so assigning to a field of a constructed fact
goes through, mutates the stored field values, and changes the canonical
form the `symbol` property regenerates from them. -/
theorem field_assignment_succeeds :
    Field_set ⟨"x", true⟩ pt11 (.int 5) = .ok [("x", .int 5), ("y", .int 1)] ∧
    generate_symbol pointSchema pt11 = some (.fn "point" [.num 1, .num 1]) ∧
    generate_symbol pointSchema [("x", .int 5), ("y", .int 1)]
      = some (.fn "point" [.num 5, .num 1]) ∧
    Sym.fn "point" [Sym.num 5, Sym.num 1] ≠ Sym.fn "point" [Sym.num 1, Sym.num 1] :=
  ⟨rfl, rfl, rfl, by simp⟩

/-- C5 (code_bug): an arity mismatch in positional construction is silent.
`_nls_init_by_positional_values` executes `return ValueError(...)` instead
of raising, so constructing the two-field point predicate from a single
positional argument finishes normally and leaves the fact with an empty
field-value dict and no symbol. -/
theorem positional_arity_mismatch_silent :
    nls_init_by_positional_values pointSchema [.int 1] = .ok ⟨[], none⟩ ∧
    nls_init_by_positional_values pointSchema [.int 1, .int 2]
      = .ok ⟨[("x", .int 1), ("y", .int 2)],
             some (.fn "point" [.num 1, .num 2])⟩ :=
  ⟨rfl, rfl⟩

/-- C6 (code_bug): a falsy declared default is treated as missing.  The
presence test in `_nls_init_by_keyword_values` is `if not
field_defn.default:`, so omitting a field whose declared default is 0
raises the no-default error, while a truthy default 7 is used. -/
theorem falsy_default_rejected :
    nls_init_by_keyword_values pointDef0 [("x", .int 1)]
      = .error "Unspecified field has no default value" ∧
    nls_init_by_keyword_values pointDef7 [("x", .int 1)]
      = .ok ⟨[("x", .int 1), ("y", .int 7)], some (.fn "p" [.num 1, .num 7])⟩ :=
  ⟨rfl, rfl⟩

/-- C9 counterexample: a fact of the one-constant-field schema `q`
constructed from the empty string encodes successfully to `q(Function("",
[]))`, but the shape check of `constant_unifies` demands a non-empty name,
so `unifies` rejects the canonical form of this successfully constructed
fact. -/
theorem unify_soundness_fails_on_empty_constant :
    generate_symbol constSchema [("a", .str "")] = some (.fn "q" [.fn "" []]) ∧
    nls_unifies constSchema (.fn "q" [.fn "" []]) = false :=
  ⟨rfl, rfl⟩

/-- Helper for C9: the bind shape of one step of the encoding loop. -/
theorem encode_fields_cons (fv : FieldValues) (nfd : String × FieldDefn)
    (rest : List (String × FieldDefn)) :
    encode_fields fv (nfd :: rest) =
      (alookup fv nfd.1).bind (fun v => (nfd.2.pytocl v).bind (fun a =>
        (encode_fields fv rest).bind (fun as => some (a :: as)))) := rfl

/-- Helper for C9: the bind shape of `generate_symbol`. -/
theorem generate_symbol_bind (schema : Schema) (fv : FieldValues) :
    generate_symbol schema fv =
      (encode_fields fv schema.fields).bind
        (fun args => some (.fn schema.name args)) := rfl

/-- Helper for C9: a value accepted by a field's encoder passes the field's
shape check, provided it avoids the empty-constant corner. -/
theorem pytocl_unifies_of_ok (fd : FieldDefn) (v : PyVal) (a : Sym)
    (h : fd.pytocl v = some a) (hok : fieldValOk fd v = true) :
    fd.unifies a = true := by
  cases fd with
  | intF d =>
      cases v with
      | int n =>
          simp only [FieldDefn.pytocl, Option.some.injEq] at h
          subst h
          rfl
      | str s => simp [FieldDefn.pytocl] at h
  | strF d =>
      cases v with
      | int n => simp [FieldDefn.pytocl] at h
      | str s =>
          simp only [FieldDefn.pytocl, Option.some.injEq] at h
          subst h
          rfl
  | constF d =>
      cases v with
      | int n => simp [FieldDefn.pytocl] at h
      | str s =>
          simp only [FieldDefn.pytocl, Option.some.injEq] at h
          subst h
          simp only [fieldValOk, decide_eq_true_eq] at hok
          simp [FieldDefn.unifies, hok]

/-- Helper for C9: the encoding loop produces one argument per field, each
passing its field's shape check. -/
theorem encode_fields_unifies (fv : FieldValues) :
    ∀ (fields : List (String × FieldDefn)) (args : List Sym),
      encode_fields fv fields = some args →
      fields.all (fun nfd =>
        match alookup fv nfd.1 with
        | some v => fieldValOk nfd.2 v
        | none => true) = true →
      args.length = fields.length ∧
        (fields.zip args).all (fun p => p.1.2.unifies p.2) = true := by
  intro fields
  induction fields with
  | nil =>
      intro args h _
      simp only [encode_fields, Option.some.injEq] at h
      subst h
      simp
  | cons nfd rest ih =>
      intro args h hok
      rw [encode_fields_cons] at h
      simp only [Option.bind_eq_some, Option.some.injEq] at h
      obtain ⟨v, hv, a, ha, as, has, hargs⟩ := h
      subst hargs
      simp only [List.all_cons, Bool.and_eq_true] at hok
      have hokhead : fieldValOk nfd.2 v = true := by
        have h1 := hok.1
        rw [hv] at h1
        exact h1
      obtain ⟨hlen, hall⟩ := ih as has hok.2
      refine ⟨by simp [hlen], ?_⟩
      simp only [List.zip_cons_cons, List.all_cons, Bool.and_eq_true]
      exact ⟨pytocl_unifies_of_ok nfd.2 v a ha hokhead, hall⟩

/-- C9 (corrected): unify soundness holds for every successfully
constructed fact whose constant-field values are non-empty (the
counterexample above shows the empty-string constant is the one corner the
original claim misses), and `unifies` rejects any Function symbol of a
different name or arity, as well as any non-Function symbol. -/
theorem unify_soundness_amended (schema : Schema) (fv : FieldValues) (s : Sym)
    (henc : generate_symbol schema fv = some s)
    (hok : factValsOk schema fv = true) :
    nls_unifies schema s = true ∧
    (∀ name args, name ≠ schema.name → nls_unifies schema (.fn name args) = false) ∧
    (∀ name args, args.length ≠ schema.fields.length →
        nls_unifies schema (.fn name args) = false) ∧
    (∀ n, nls_unifies schema (.num n) = false) ∧
    (∀ t, nls_unifies schema (.str t) = false) := by
  rw [generate_symbol_bind] at henc
  simp only [Option.bind_eq_some, Option.some.injEq] at henc
  obtain ⟨args, hargs, hs⟩ := henc
  subst hs
  obtain ⟨hlen, hall⟩ := encode_fields_unifies fv schema.fields args hargs hok
  refine ⟨?_, ?_, ?_, fun n => rfl, fun t => rfl⟩
  · simp [nls_unifies, hlen, hall]
  · intro name args2 hname
    simp [nls_unifies, hname]
  · intro name args2 hlen2
    simp [nls_unifies, hlen2]

/-- Witness for C9: the theorem applied to the fact point(1,1), whose
integer fields trivially avoid the constant corner; name and arity
mismatches are rejected. -/
theorem unify_soundness_amended_witness :
    nls_unifies pointSchema (.fn "point" [.num 1, .num 1]) = true ∧
    nls_unifies pointSchema (.fn "other" [.num 1, .num 1]) = false ∧
    nls_unifies pointSchema (.fn "point" [.num 1]) = false := by
  have h := unify_soundness_amended pointSchema pt11
    (.fn "point" [.num 1, .num 1]) rfl (by decide)
  exact ⟨h.1, h.2.1 "other" [.num 1, .num 1] (by decide),
    h.2.2.1 "point" [.num 1] (by decide)⟩

/-- Helper for C7 and C10: the bind shape of one step of the keyword
binding loop. -/
theorem bind_kwargs_cons (kwargs : List (String × Option PyVal)) (ph : Ph)
    (rest : List Ph) :
    bind_kwargs kwargs (ph :: rest) =
      if (resolved_value kwargs ph).isNone then .error "no value for placeholder"
      else Except.bind (bind_kwargs kwargs rest)
        (fun tail => .ok ((ph.name, resolved_value kwargs ph) :: tail)) := rfl

/-- Helper for C7: the keyword loop succeeds with exactly the
reset-or-supplied values iff every placeholder resolves to a value, and
raises the unbound error otherwise. -/
theorem bind_kwargs_spec (kwargs : List (String × Option PyVal)) :
    ∀ phs : List Ph,
      (bind_kwargs kwargs phs =
          .ok (phs.map (fun ph => (ph.name, resolved_value kwargs ph)))
        ↔ phs.all (fun ph => (resolved_value kwargs ph).isSome) = true) ∧
      (phs.all (fun ph => (resolved_value kwargs ph).isSome) = false →
        bind_kwargs kwargs phs = .error "no value for placeholder") := by
  intro phs
  induction phs with
  | nil =>
      refine ⟨by simp [bind_kwargs], by simp⟩
  | cons ph rest ih =>
      rw [bind_kwargs_cons]
      cases hx : resolved_value kwargs ph with
      | none =>
          rw [if_pos (show Option.isNone (none : Option PyVal) = true from rfl)]
          refine ⟨⟨fun h => absurd h (by simp), fun h => ?_⟩, fun _ => rfl⟩
          simp only [List.all_cons, hx, Option.isSome_none, Bool.false_and] at h
          exact absurd h (by simp)
      | some v =>
          rw [if_neg (show ¬ Option.isNone (some v) = true from by simp)]
          constructor
          · constructor
            · intro h
              cases hb : bind_kwargs kwargs rest with
              | error e =>
                  rw [hb] at h
                  exact absurd h (by simp [Except.bind])
              | ok tail =>
                  rw [hb] at h
                  simp only [Except.bind, Except.ok.injEq, List.map_cons,
                    List.cons.injEq, hx, true_and] at h
                  rw [h] at hb
                  have hrest := (ih.1).mp hb
                  simp [List.all_cons, hx, hrest]
            · intro h
              simp only [List.all_cons, Bool.and_eq_true] at h
              rw [(ih.1).mpr h.2]
              simp [Except.bind, hx]
          · intro h
            simp only [List.all_cons, hx, Option.isSome_some, Bool.true_and] at h
            rw [ih.2 h]
            rfl

/-- Helper for C7 and C10: with empty positional arguments and every
keyword naming a known placeholder, `_set_placeholder_values` runs the
keyword loop (or the trivial early return when nothing is known or
supplied, which agrees with it). -/
theorem set_placeholder_values_kwargs_path (phs : List Ph)
    (kwargs : List (String × Option PyVal))
    (hknown : kwargs.all (fun kv => (find_ph phs (.named kv.1)).isSome) = true) :
    set_placeholder_values phs [] kwargs = bind_kwargs kwargs phs := by
  have hany : kwargs.any (fun kv => (find_ph phs (.named kv.1)).isNone) = false := by
    rw [List.any_eq_false]
    intro kv hkv
    have h1 := (List.all_eq_true.mp hknown) kv hkv
    cases hfp : find_ph phs (.named kv.1) with
    | none => rw [hfp] at h1; exact absurd h1 (by simp)
    | some p => simp
  by_cases hpe : phs = []
  · subst hpe
    cases kwargs with
    | nil => simp [set_placeholder_values, bind_kwargs]
    | cons kv rest =>
        have h1 := (List.all_eq_true.mp hknown) kv (by simp)
        simp [find_ph] at h1
  · have hpe2 : phs.isEmpty = false := by
      cases phs
      · exact absurd rfl hpe
      · rfl
    simp [set_placeholder_values, hpe2, hany]

/-- C7 (confirmed): in the keyword form of query binding (including the
no-argument call), every known placeholder not supplied a (non-None)
argument is reset to its default, the call succeeds exactly when every
placeholder ends up with a value — binding each placeholder to its supplied
value or its default — and otherwise raises the unbound-placeholder error.
(The positional form supplies every placeholder by its exact-count check,
so no reset arises there.) -/
theorem placeholder_binding_resolution (phs : List Ph)
    (kwargs : List (String × Option PyVal))
    (hknown : kwargs.all (fun kv => (find_ph phs (.named kv.1)).isSome) = true) :
    (set_placeholder_values phs [] kwargs =
        .ok (phs.map (fun ph => (ph.name, resolved_value kwargs ph)))
      ↔ phs.all (fun ph => (resolved_value kwargs ph).isSome) = true) ∧
    (phs.all (fun ph => (resolved_value kwargs ph).isSome) = false →
      set_placeholder_values phs [] kwargs = .error "no value for placeholder") := by
  rw [set_placeholder_values_kwargs_path phs kwargs hknown]
  exact bind_kwargs_spec kwargs phs

/-- Witness for C7, on the specification's scenario: the query
`Point.x == ph1_` over the indexed scenario partition raises the unbound
error when invoked with no arguments (`ph1_` has no default), while
invoking it with the positional argument 2 binds `ph1_` to 2 and the query
then returns exactly the fact point(2,4). -/
theorem placeholder_binding_resolution_witness :
    set_placeholder_values [ph1] [] [] = .error "no value for placeholder" ∧
    (Select_where pointMapIdx [xEqPh]).phs = [ph1] ∧
    set_placeholder_values [ph1] [some (.int 2)] [] = .ok [(.pos 0, some (.int 2))] ∧
    Select_get (Select_where pointMapIdx [xEqPh]) env2 = [pt24] :=
  ⟨(placeholder_binding_resolution [ph1] [] rfl).2 (by decide), rfl, rfl, by decide⟩

/-- Helper on association lists: lookup after a cons. -/
theorem alookup_cons {α β : Type} [DecidableEq α] (a : α) (b : β)
    (l : List (α × β)) (k : α) :
    alookup ((a, b) :: l) k = if a = k then some b else alookup l k := by
  by_cases hak : a = k <;> simp [alookup, List.find?_cons, hak]

/-- Helper for C10: a keyword entry holding None never contributes a value,
so resolution sees it as absent. -/
theorem resolved_value_none_entry (kwargs : List (String × Option PyVal))
    (n : String) (ph : Ph) (hnodup : alookup kwargs n = none) :
    resolved_value ((n, none) :: kwargs) ph = resolved_value kwargs ph := by
  have hkw : kwget ((n, none) :: kwargs) ph.name = kwget kwargs ph.name := by
    cases ph.name with
    | pos i => rfl
    | named s =>
        simp only [kwget]
        rw [alookup_cons]
        by_cases hsn : n = s
        · subst hsn
          rw [if_pos rfl, hnodup]
        · rw [if_neg hsn]
  unfold resolved_value
  rw [hkw]

/-- Helper for C10: the keyword loop only looks at resolved values. -/
theorem bind_kwargs_congr (k1 k2 : List (String × Option PyVal)) :
    ∀ phs : List Ph,
      (∀ ph ∈ phs, resolved_value k1 ph = resolved_value k2 ph) →
      bind_kwargs k1 phs = bind_kwargs k2 phs := by
  intro phs
  induction phs with
  | nil => intro _; rfl
  | cons ph rest ih =>
      intro h
      rw [bind_kwargs_cons, bind_kwargs_cons, h ph (by simp),
        ih (fun p hp => h p (by simp [hp]))]

/-- C10 (confirmed): supplying a keyword argument whose value is None is
indistinguishable from omitting it — `kwargs.get(n, None)` yields None
either way, the placeholder is reset to its default, and the call fails
with the unbound error exactly as the omitted call would.  Consequently
None can never be bound as a placeholder value through keywords. -/
theorem none_keyword_argument_behaves_as_omitted (phs : List Ph) (n : String)
    (kwargs : List (String × Option PyVal))
    (hk : (find_ph phs (.named n)).isSome = true)
    (hnodup : alookup kwargs n = none) :
    set_placeholder_values phs [] ((n, none) :: kwargs) =
      set_placeholder_values phs [] kwargs := by
  have hpe : phs ≠ [] := by
    intro h
    subst h
    simp [find_ph] at hk
  have hknown1 : ∀ kwargs2 : List (String × Option PyVal),
      (kwargs2.all (fun kv => (find_ph phs (.named kv.1)).isSome) = true) →
      set_placeholder_values phs [] kwargs2 = bind_kwargs kwargs2 phs :=
    fun kwargs2 h => set_placeholder_values_kwargs_path phs kwargs2 h
  by_cases hgood : kwargs.all (fun kv => (find_ph phs (.named kv.1)).isSome) = true
  · rw [hknown1 ((n, none) :: kwargs) (by simp [hgood, hk]),
      hknown1 kwargs hgood]
    exact bind_kwargs_congr _ _ phs
      (fun ph _ => resolved_value_none_entry kwargs n ph hnodup)
  · -- some keyword names an unknown placeholder: both calls raise the
    -- unknown-placeholder error
    have hpe2 : phs.isEmpty = false := by
      cases phs
      · exact absurd rfl hpe
      · rfl
    have hany : kwargs.any (fun kv => (find_ph phs (.named kv.1)).isNone) = true := by
      rw [List.any_eq_true]
      rcases List.all_eq_false.mp (Bool.eq_false_iff.mpr hgood) with ⟨kv, hkv, hkv2⟩
      refine ⟨kv, hkv, ?_⟩
      cases hfp : find_ph phs (.named kv.1) with
      | none => rfl
      | some p => rw [hfp] at hkv2; exact absurd rfl hkv2
    simp [set_placeholder_values, hpe2, hany, hk]

/-- Witness for C10: with a declared default 9 for the placeholder named a,
calling with the keyword argument a=None equals calling with no arguments
(both fall back to 9); with no default, the keyword argument b=None raises
the unbound error just like the omitted call. -/
theorem none_keyword_argument_behaves_as_omitted_witness :
    set_placeholder_values [⟨.named "a", some (.int 9)⟩] [] [("a", none)] =
      set_placeholder_values [⟨.named "a", some (.int 9)⟩] [] [] ∧
    set_placeholder_values [⟨.named "a", some (.int 9)⟩] [] []
      = .ok [(.named "a", some (.int 9))] ∧
    set_placeholder_values [⟨.named "b", none⟩] [] [("b", none)]
      = .error "no value for placeholder" := by
  refine ⟨none_keyword_argument_behaves_as_omitted _ "a" [] (by decide) rfl,
    rfl, ?_⟩
  rw [none_keyword_argument_behaves_as_omitted _ "b" [] (by decide) rfl]
  rfl

/-- Helper for C8: the candidate merge step is associative. -/
theorem ps_merge_assoc (index : List String) (a b c : Option Ix) :
    ps_merge index (ps_merge index a b) c = ps_merge index a (ps_merge index b c) := by
  cases a with
  | none =>
      cases b with
      | none => cases c <;> rfl
      | some vb =>
          cases c with
          | none => rfl
          | some vc =>
              by_cases hbc : prio index vc.1 < prio index vb.1 <;>
                simp [ps_merge, hbc]
  | some va =>
      cases b with
      | none => cases c <;> rfl
      | some vb =>
          cases c with
          | none => rfl
          | some vc =>
              by_cases hab : prio index vb.1 < prio index va.1 <;>
                by_cases hbc : prio index vc.1 < prio index vb.1 <;>
                by_cases hac : prio index vc.1 < prio index va.1 <;>
                simp [ps_merge, hab, hbc, hac] <;>
                omega

/-- Helper for C8: the specification choice over a cons is a merge (the
tie-preferring-first rule and the strictly-smaller-replaces rule mirror
each other). -/
theorem spec_first_min_cons (index : List String) (t : Ix) (rest : List Ix) :
    spec_first_min index (t :: rest) =
      ps_merge index (some t) (spec_first_min index rest) := by
  cases h : spec_first_min index rest with
  | none => simp [spec_first_min, ps_merge, h]
  | some u =>
      simp only [spec_first_min, ps_merge, h]
      by_cases hc : prio index t.1 ≤ prio index u.1
      · rw [if_pos hc, if_neg (by omega)]
      · rw [if_neg hc, if_pos (by omega)]

/-- Helper for C8: the specification choice rule distributes over
concatenation through the merge step. -/
theorem spec_first_min_append (index : List String) (l1 l2 : List Ix) :
    spec_first_min index (l1 ++ l2) =
      ps_merge index (spec_first_min index l1) (spec_first_min index l2) := by
  induction l1 with
  | nil =>
      cases h : spec_first_min index l2 <;> simp [spec_first_min, ps_merge, h]
  | cons t r ih =>
      rw [List.cons_append, spec_first_min_cons index t (r ++ l2), ih,
        spec_first_min_cons index t r, ps_merge_assoc]

/-- Helper for C8: the child loop of `_primary_search` computes the merge of
its accumulator with the specification choice over the drivable leaves of
its children, provided each child search already agrees with the
specification. -/
theorem ps_loop_eq (index : List String) :
    ∀ (args : List Comp) (acc : Option Ix),
      (∀ c ∈ args, primary_search index c =
        spec_first_min index (spec_drivable_leaves index c)) →
      ps_loop index args acc =
        ps_merge index acc (spec_first_min index (sdl_loop index args)) := by
  intro args
  induction args with
  | nil =>
      intro acc _
      cases acc <;> simp [ps_loop, sdl_loop, spec_first_min, ps_merge]
  | cons c rest ih =>
      intro acc hIH
      simp only [ps_loop, sdl_loop]
      rw [ih _ (fun x hx => hIH x (by simp [hx])), hIH c (by simp),
        spec_first_min_append, ps_merge_assoc]

/-- Helper for C8: `_primary_search` returns exactly the
specification-chosen drivable leaf (lowest priority number, ties to the
first encountered), proved by strong induction on the size of the
comparator tree. -/
theorem primary_search_eq_spec (index : List String) :
    ∀ c : Comp, primary_search index c =
      spec_first_min index (spec_drivable_leaves index c) := by
  have key : ∀ (n : Nat) (c : Comp), sizeOf c ≤ n →
      primary_search index c = spec_first_min index (spec_drivable_leaves index c) := by
    intro n
    induction n with
    | zero =>
        intro c hc
        cases c <;> simp at hc
    | succ n ihn =>
        intro c hc
        cases c with
        | static b => rfl
        | fieldc op f a =>
            simp only [primary_search, spec_drivable_leaves]
            cases h : validate_indexable index (fc_indexable op f a) <;>
              simp [spec_first_min, Option.toList]
        | boolc bop args =>
            cases bop with
            | notOp => rfl
            | orOp => rfl
            | andOp =>
                have hkids : ∀ x ∈ args, primary_search index x =
                    spec_first_min index (spec_drivable_leaves index x) := by
                  intro x hx
                  apply ihn
                  have h2 := List.sizeOf_lt_of_mem hx
                  have h3 : sizeOf (Comp.boolc .andOp args) ≤ n + 1 := hc
                  simp only [Comp.boolc.sizeOf_spec] at h3
                  omega
                simp only [primary_search, spec_drivable_leaves]
                rw [ps_loop_eq index args none hkids]
                cases h : spec_first_min index (sdl_loop index args) <;>
                  simp [ps_merge]
  intro c
  exact key (sizeOf c) c le_rfl

/-- C8 (confirmed): index selection agrees with the specification.  The
search result is always the specification choice (lowest priority number,
ties to the first encountered in child order) among the drivable leaves
reachable through the AND spine; `OR` and `NOT` nodes and static
comparators yield no candidate (full scan); a lone field comparator is
drivable exactly when its field is indexed and its other side is not a
field accessor. -/
theorem primary_search_spec :
    (∀ (index : List String) (c : Comp), primary_search index c =
        spec_first_min index (spec_drivable_leaves index c)) ∧
    (∀ (index : List String) (bargs : List Comp),
        primary_search index (.boolc .orOp bargs) = none) ∧
    (∀ (index : List String) (bargs : List Comp),
        primary_search index (.boolc .notOp bargs) = none) ∧
    (∀ (index : List String) (b : Bool),
        primary_search index (.static b) = none) ∧
    (∀ (index : List String) (op : CompOp) (f : String) (a : RhsArg),
        primary_search index (.fieldc op f a) =
          if f ∈ index ∧ a.isFieldArg = false then some (f, op, a) else none) := by
  refine ⟨fun index c => primary_search_eq_spec index c,
    fun _ _ => rfl, fun _ _ => rfl, fun _ _ => rfl, ?_⟩
  intro index op f a
  cases a with
  | fieldArg g =>
      by_cases hg : g = f <;>
        simp [primary_search, fc_indexable, fc_static, validate_indexable,
          RhsArg.isFieldArg, hg]
  | phArg p =>
      by_cases hf : f ∈ index <;>
        simp [primary_search, fc_indexable, fc_static, validate_indexable,
          RhsArg.isFieldArg, hf]
  | litArg v =>
      by_cases hf : f ∈ index <;>
        simp [primary_search, fc_indexable, fc_static, validate_indexable,
          RhsArg.isFieldArg, hf]

end Clorm
